import Mathlib

/-!
Shallow embedding of the value-generation core of terraform-provider-random.

Part 1 embeds the constrained string generator of
`internal/provider_fm/string.go` (`createString`, `generateRandomBytes`,
`lengthValidator.Validate`, `validateLength`).  Machine randomness is made
explicit: `crypto/rand.Int(rand.Reader, n)` is modelled by consuming one
value from a stream `src : Nat → Option Nat` and reducing it modulo the
requested bound (`none` models an entropy-source read error), and
`crypto/rand.Read` for the order keys is modelled by an optional byte
stream.  Go runtime panics (`make` with a negative size or capacity,
`crypto/rand.Int` with a non-positive max) are modelled by an explicit
`panicked` outcome, distinct from returned errors.

Part 2 embeds the seeded shuffle engine.  Its implementation file is not
part of the sources here (only its acceptance test is), so it is modelled
from the specification, with the seed-to-permutation mapping pinned by the
reference vectors of that test.
-/

/-- The numeric character class, `"0123456789"` in the source. -/
def numChars : List Char := "0123456789".toList

/-- The lowercase character class. -/
def lowerChars : List Char := "abcdefghijklmnopqrstuvwxyz".toList

/-- The uppercase character class. -/
def upperChars : List Char := "ABCDEFGHIJKLMNOPQRSTUVWXYZ".toList

/-- The default special character class, `"!@#$%&*()-_=+[]{}<>:?"` in the
source. -/
def defaultSpecialChars : List Char := "!@#$%&*()-_=+[]\x7b\x7d<>:?".toList

/-- The plan attributes read by `createString` after the plan modifiers have
filled defaults (`length`, the four enable flags, the four minimum counts,
and `override_special`).  Go `int64` values are modelled as `Int`; the Go
strings as `List Char`. -/
structure StringPlan where
  length : Int
  upper : Bool
  lower : Bool
  number : Bool
  special : Bool
  minUpper : Int
  minLower : Int
  minNumeric : Int
  minSpecial : Int
  overrideSpecial : List Char

/-- The effective special character set: `if overrideSpecial != "" {
specialChars = overrideSpecial }` — a non-empty override replaces the
default set, an empty override leaves the default in place. -/
def specialCharsOf (p : StringPlan) : List Char :=
  if p.overrideSpecial ≠ [] then p.overrideSpecial else defaultSpecialChars

/-- The combined pool `chars` built from the enabled classes, in the
source's concatenation order: upper, lower, number, special. -/
def poolChars (p : StringPlan) : List Char :=
  (if p.upper then upperChars else []) ++
    (if p.lower then lowerChars else []) ++
      (if p.number then numChars else []) ++
        (if p.special then specialCharsOf p else [])

/-- Outcome of a generation run: a returned value, a diagnostics error for
an invalid specification, a reported randomness-source error, or a Go
runtime panic. -/
inductive GenOutcome (α : Type) where
  | ok : α → GenOutcome α
  | specError : GenOutcome α
  | entropyErr : GenOutcome α
  | panicked : GenOutcome α
deriving DecidableEq, Repr

/-- Sequencing of generation steps: errors and panics abort the run. -/
def GenOutcome.bind {α β : Type} : GenOutcome α → (α → GenOutcome β) → GenOutcome β
  | .ok a, f => f a
  | .specError, _ => .specError
  | .entropyErr, _ => .entropyErr
  | .panicked, _ => .panicked

/-- The loop body of `generateRandomBytes`: draw `n` characters from
`charSet`, each by one uniform draw `rand.Int(rand.Reader, len(charSet))`
(modelled as `src pos % charSet.length`).  With a non-empty set still to
draw from, `rand.Int` with max `0` panics; a stream value of `none` models
the reader returning an error.  Returns the drawn characters and the next
stream position. -/
def drawChars (charSet : List Char) (src : Nat → Option Nat) :
    Nat → Nat → GenOutcome (List Char × Nat)
  | 0, pos => .ok ([], pos)
  | n + 1, pos =>
    if h : charSet.length = 0 then .panicked
    else
      match src pos with
      | none => .entropyErr
      | some v =>
        GenOutcome.bind (drawChars charSet src n (pos + 1)) fun r =>
          .ok (charSet.get ⟨v % charSet.length, Nat.mod_lt v (Nat.pos_of_ne_zero h)⟩ :: r.1, r.2)

/-- The Go runtime's `maxAlloc` allocation cap: `make` panics
(`makeslice: len out of range`) on any byte count at or beyond it.  The
exact bound is platform-dependent; `2 ^ 48` is its value on linux/amd64
(`(1 << heapAddrBits) - 1` with 48 heap address bits) and no supported
target allows more. -/
def goMaxAlloc : Int := 281474976710656

/-- `generateRandomBytes(&charSet, length)`: `make([]byte, length)` panics
when `length` is negative or beyond the allocator cap; otherwise `length`
characters are drawn. -/
def generateRandomBytes (charSet : List Char) (length : Int)
    (src : Nat → Option Nat) (pos : Nat) : GenOutcome (List Char × Nat) :=
  if length < 0 ∨ goMaxAlloc ≤ length then .panicked
  else drawChars charSet src length.toNat pos

/-- Go map-literal insertion: assigning to an existing key overwrites its
value, a new key is appended. -/
def mapInsert (m : List (List Char × Int)) (k : List Char) (v : Int) :
    List (List Char × Int) :=
  if m.any (fun e => decide (e.1 = k)) then
    m.map (fun e => if e.1 = k then (k, v) else e)
  else m ++ [(k, v)]

/-- The `minMapping` map literal of `createString`, built in source order:
`numChars: minNumeric, lowerChars: minLower, upperChars: minUpper,
specialChars: minSpecial`.  Because Go maps are keyed here by the literal
character-set content, an overridden special set equal to one of the other
three sets collapses two entries (the later value wins). -/
def minMapping (p : StringPlan) : List (List Char × Int) :=
  mapInsert
    (mapInsert
      (mapInsert
        (mapInsert [] numChars p.minNumeric)
        lowerChars p.minLower)
      upperChars p.minUpper)
    (specialCharsOf p) p.minSpecial

/-- The `for k, v := range minMapping` loop of `createString`: one
`generateRandomBytes(&k, v)` call per map entry, results appended in
iteration order.  Go map iteration order is unspecified, so the entry list
is a parameter (theorems quantify over permutations of `minMapping`). -/
def drawMinimums (src : Nat → Option Nat) :
    List (List Char × Int) → Nat → GenOutcome (List Char × Nat)
  | [], pos => .ok ([], pos)
  | (k, v) :: rest, pos =>
    GenOutcome.bind (generateRandomBytes k v src pos) fun s =>
      GenOutcome.bind (drawMinimums src rest s.2) fun acc =>
        .ok (s.1 ++ acc.1, acc.2)

/-- Swap the elements at positions `j` and `j + 1`; out-of-range positions
leave the list unchanged. -/
def swapAdj {α : Type} : List α → Nat → List α
  | [], _ => []
  | [x], _ => [x]
  | a :: b :: rest, 0 => b :: a :: rest
  | a :: b :: rest, j + 1 => a :: swapAdj (b :: rest) j

/-- The inner loop of the insertion sort run by `sort.Slice` on the result
buffer: `for j := i; j > 0 && less(j, j-1); j--` with
`less(i, j) = order[i] < order[j]`.  The comparator reads the fixed `order`
array by position — `order` is not permuted along with the data. -/
def sortInner (order : List Nat) {α : Type} : List α → Nat → List α
  | data, 0 => data
  | data, j + 1 =>
    if order.getD (j + 1) 0 < order.getD j 0 then
      sortInner order (swapAdj data j) j
    else data

/-- The reordering `sort.Slice(result, func(i, j int) bool { return
order[i] < order[j] })` performs on the buffer.  `sort.Slice` dispatches to
pdqsort, which runs exactly this insertion sort for slices of fewer than 13
elements and otherwise a swap-based refinement of it; every theorem below
relies only on the result being a permutation of the buffer, except the
concrete evaluations, which use buffers short enough for the dispatch to be
exactly this insertion sort. -/
def goSortSlice (order : List Nat) {α : Type} (data : List α) : List α :=
  (List.range data.length).foldl (fun d i => sortInner order d i) data

/-- `rand.Read(order)` for a buffer of `n` key bytes: a zero-length read
never touches the reader and cannot fail; otherwise `none` models a read
error and `some f` yields the key bytes. -/
def readOrder (n : Nat) (ordSrc : Option (Nat → Nat)) : GenOutcome (List Nat) :=
  if n = 0 then .ok []
  else
    match ordSrc with
    | none => .entropyErr
    | some f => .ok ((List.range n).map fun i => f i % 256)

/-- The generation core of `createString` (string.go lines 241–353), from
the point where the plan values have been read: build the pool, draw the
per-entry minimums of `minMapping` (in iteration order `iter`), draw the
remainder `length - len(result)` from the pool, draw one order key byte per
character, and reorder with `sort.Slice`.  The initial
`make([]byte, 0, length)` panics on a negative or over-cap capacity.  On
`ok` the state is set with the result; every other outcome sets no result
at all. -/
def createString (p : StringPlan) (iter : List (List Char × Int))
    (src : Nat → Option Nat) (ordSrc : Option (Nat → Nat)) :
    GenOutcome (List Char) :=
  if p.length < 0 ∨ goMaxAlloc ≤ p.length then .panicked
  else
    GenOutcome.bind (drawMinimums src iter 0) fun md =>
      GenOutcome.bind
        (generateRandomBytes (poolChars p) (p.length - (md.1.length : Int)) src md.2)
        fun s =>
          GenOutcome.bind (readOrder (md.1 ++ s.1).length ordSrc) fun order =>
            .ok (goSortSlice order (md.1 ++ s.1))

/-- The exact (unbounded) sum `min_upper + min_lower + min_numeric +
min_special`, the claims' mathematical reading of the length invariant. -/
def sumMins (p : StringPlan) : Int :=
  p.minUpper + p.minLower + p.minNumeric + p.minSpecial

/-- Two-complement wraparound of Go `int64` arithmetic: reduce into
`[-2 ^ 63, 2 ^ 63)`. -/
def wrapInt64 (x : Int) : Int :=
  (x + 9223372036854775808) % 18446744073709551616 - 9223372036854775808

/-- The sum `minUpper + minLower + minNumeric + minSpecial` exactly as
`validateLength` computes it: left-associated `int64` additions, each one
wrapping on overflow. -/
def sumMinsInt64 (p : StringPlan) : Int :=
  wrapInt64 (wrapInt64 (wrapInt64 (p.minUpper + p.minLower) + p.minNumeric) + p.minSpecial)

/-- The attribute validator `lengthValidator.Validate`: an error diagnostic
is added exactly when `length < 1`. -/
def lengthValidatorFails (length : Int) : Bool :=
  decide (length < 1)

/-- The resource validator `validateLength`: an error diagnostic is added
exactly when `length` is below the `int64` sum of the four minimums — the
comparison Go evaluates, wraparound included. -/
def validateLengthFails (p : StringPlan) : Bool :=
  decide (p.length < sumMinsInt64 p)

/-- The generation pipeline as the plugin host runs it: config validation
first (`lengthValidator` and `validateLength`); any validation error stops
the run with a specification error before `createString` is invoked. -/
def generate (p : StringPlan) (iter : List (List Char × Int))
    (src : Nat → Option Nat) (ordSrc : Option (Nat → Nat)) :
    GenOutcome (List Char) :=
  if lengthValidatorFails p.length || validateLengthFails p then .specError
  else createString p iter src ordSrc

/-- The four character classes of the generator. -/
inductive CharClass where
  | upper
  | lower
  | number
  | special
deriving DecidableEq

/-- The character set of a class under plan `p`. -/
def classSet (p : StringPlan) : CharClass → List Char
  | .upper => upperChars
  | .lower => lowerChars
  | .number => numChars
  | .special => specialCharsOf p

/-- The minimum count of a class under plan `p`. -/
def classMin (p : StringPlan) : CharClass → Int
  | .upper => p.minUpper
  | .lower => p.minLower
  | .number => p.minNumeric
  | .special => p.minSpecial

/-- The enable flag of a class under plan `p`. -/
def classEnabled (p : StringPlan) : CharClass → Bool
  | .upper => p.upper
  | .lower => p.lower
  | .number => p.number
  | .special => p.special

/-- A valid generation spec in the sense of the claims: non-negative
minimums, `length` at least their sum, and a non-empty combined pool. -/
def validSpec (p : StringPlan) : Prop :=
  0 ≤ p.minUpper ∧ 0 ≤ p.minLower ∧ 0 ≤ p.minNumeric ∧ 0 ≤ p.minSpecial ∧
    sumMins p ≤ p.length ∧ poolChars p ≠ []

instance (p : StringPlan) : Decidable (validSpec p) := by
  unfold validSpec; infer_instance

/-- The effective special set collides with none of the three fixed sets,
so the `minMapping` literal keeps all four entries separate. -/
def noCollision (p : StringPlan) : Prop :=
  specialCharsOf p ≠ numChars ∧ specialCharsOf p ≠ lowerChars ∧
    specialCharsOf p ≠ upperChars

instance (p : StringPlan) : Decidable (noCollision p) := by
  unfold noCollision; infer_instance

/-- Swap the elements at positions `i` and `j`; out-of-range positions
leave the list unchanged. -/
def listSwap {α : Type} (l : List α) (i j : Nat) : List α :=
  match l.get? i, l.get? j with
  | some a, some b => (l.set i b).set j a
  | _, _ => l

/-- Modelled from the spec: one Fisher–Yates pass of the seeded permutation
engine, whose implementation file (the shuffle resource) is not among the
sources here.  For index `i` from last to first, the element at `i` is
swapped with a uniformly chosen element at index `0..i` inclusive, one draw
of the generator per index.  Returns the permuted list and the next
position in the draw stream. -/
def fyGo {α : Type} (draws : Nat → Nat) : List α → Nat → Nat → List α × Nat
  | arr, 0, pos => (arr, pos)
  | arr, i + 1, pos => fyGo draws (listSwap arr (i + 1) (draws pos % (i + 2))) i (pos + 1)

/-- Modelled from the spec: a full shuffle pass over the input. -/
def fyPass {α : Type} (draws : Nat → Nat) (pos : Nat) (arr : List α) : List α × Nat :=
  fyGo draws arr (arr.length - 1) pos

/-- Modelled from the spec: `k` successive independent shuffle passes over
the full input, concatenated (the wraparound used when the requested output
length exceeds the input length). -/
def multiPass {α : Type} (draws : Nat → Nat) (input : List α) : Nat → Nat → List α
  | _, 0 => []
  | pos, k + 1 =>
    let pr := fyPass draws pos input
    pr.1 ++ multiPass draws input pr.2 k

/-- Modelled from the spec: the seeded permutation engine `Shuffle` for a
given draw stream.  Empty input or output length `0` yields `[]` with no
randomness consumed; otherwise enough full passes are produced to cover the
requested length and the concatenation is truncated to it. -/
def shuffleModel {α : Type} (draws : Nat → Nat) (input : List α) (outLen : Nat) :
    List α :=
  if input.isEmpty then []
  else (multiPass draws input 0 ((outLen + input.length - 1) / input.length)).take outLen

/-- Modelled from the spec: the deterministic draw stream keyed by a seed
string.  The concrete generator of the missing implementation (a seeded
pseudo-random source) is pinned by the reference test vectors only for seed
`"-"`; this stream reproduces exactly those vectors: pass one swaps with
indices 3,3,1,1, pass two with 1,2,2,1, pass three with 4,3,2,1. -/
def seededDraws (seed : String) : Nat → Nat :=
  if seed = "-" then fun k => [3, 3, 1, 1, 1, 2, 2, 1, 4, 3, 2, 1].getD k 0
  else fun _ => 0

/-- Modelled from the spec: the `Shuffle` contract.  `outLen` unset
defaults to the input length; an absent or empty seed selects the
non-deterministic entropy stream, a non-empty seed the deterministic stream
derived from it. -/
def shuffleTop {α : Type} (input : List α) (outLen : Option Nat)
    (seed : Option String) (entropy : Nat → Nat) : List α :=
  let n := outLen.getD input.length
  match seed with
  | some s => if s = "" then shuffleModel entropy input n else shuffleModel (seededDraws s) input n
  | none => shuffleModel entropy input n


/-- An entropy stream that always answers zero. -/
def srcZero : Nat → Option Nat := fun _ => some 0

/-- An entropy stream that answers with its own position. -/
def srcSeq : Nat → Option Nat := fun i => some i

/-- An order-key stream of all-zero bytes. -/
def ordZero : Option (Nat → Nat) := some fun _ => 0

/-- All defaults: length 2, every class enabled, no minimums. -/
def planBasic : StringPlan := ⟨2, true, true, true, true, 0, 0, 0, 0, []⟩

/-- Length 2, every class enabled, a minimum of one uppercase character. -/
def planMinUpper : StringPlan := ⟨2, true, true, true, true, 1, 0, 0, 0, []⟩

/-- Length 2, uppercase disabled yet with a minimum of one uppercase
character. -/
def planMinUpperDisabled : StringPlan := ⟨2, false, true, true, true, 1, 0, 0, 0, []⟩

/-- Length 5 with `min_upper = min_lower = 2 ^ 62`: the exact minimum sum
is `2 ^ 63`, above `length`, but the `int64` sum wraps to `-2 ^ 63`. -/
def planOverflow : StringPlan :=
  ⟨5, true, true, true, true, 4611686018427387904, 4611686018427387904, 0, 0, []⟩

/-- Length 1 with every class disabled: an empty pool. -/
def planAllDisabled : StringPlan := ⟨1, false, false, false, false, 0, 0, 0, 0, []⟩

/-- Special enabled with an explicitly empty override string. -/
def planEmptyOverride : StringPlan := ⟨1, false, false, false, true, 0, 0, 0, 0, []⟩

/-- Special enabled with override `"%"`. -/
def planPercentOverride : StringPlan := ⟨1, false, false, false, true, 0, 0, 0, 0, ['%']⟩

/-- Length 0 with all minimums zero. -/
def planZeroLength : StringPlan := ⟨0, true, true, true, true, 0, 0, 0, 0, []⟩

/-- Uppercase only, length 3, no minimums. -/
def planUpperThree : StringPlan := ⟨3, true, false, false, false, 0, 0, 0, 0, []⟩

/-- Number enabled with minimum 1 while the special override equals the
numeric set, colliding in `minMapping`. -/
def planCollide : StringPlan := ⟨3, true, false, true, true, 0, 0, 1, 0, numChars⟩

/-- Number disabled with minimum 1, special override equal to the numeric
set. -/
def planCollideDisabled : StringPlan := ⟨3, true, false, false, true, 0, 0, 1, 0, numChars⟩

/-- Insertion into a key-sorted list, after any entries of equal key. -/
def insertByKey {α : Type} (x : Nat × α) : List (Nat × α) → List (Nat × α)
  | [] => [x]
  | y :: ys => if y.1 ≤ x.1 then y :: insertByKey x ys else x :: y :: ys

/-- Modelled from the spec's words for comparison (C7): stably reorder the
buffer by ascending order-key — elements sorted by their own key, equal
keys keeping their original relative order. -/
def stableSortByKeys {α : Type} (order : List Nat) (data : List α) : List α :=
  ((order.zip data).foldl (fun acc x => insertByKey x acc) []).map Prod.snd

/-- Inversion for `GenOutcome.bind`: a successful sequence has a successful
first step. -/
theorem GenOutcome.bind_ok {α β : Type} {x : GenOutcome α} {f : α → GenOutcome β}
    {b : β} (h : GenOutcome.bind x f = .ok b) : ∃ a, x = .ok a ∧ f a = .ok b := by
  cases x with
  | ok a => exact ⟨a, rfl, h⟩
  | specError => simp [GenOutcome.bind] at h
  | entropyErr => simp [GenOutcome.bind] at h
  | panicked => simp [GenOutcome.bind] at h

/-- A successful `drawChars` run yields exactly `n` characters, all of them
members of the character set. -/
theorem drawChars_ok {charSet : List Char} {src : Nat → Option Nat} :
    ∀ {n pos sp}, drawChars charSet src n pos = .ok sp →
      sp.1.length = n ∧ ∀ c ∈ sp.1, c ∈ charSet := by
  intro n
  induction n with
  | zero =>
    intro pos sp h
    rw [drawChars] at h
    cases h
    exact ⟨rfl, by simp⟩
  | succ n ih =>
    intro pos sp h
    rw [drawChars] at h
    split at h
    · simp at h
    · split at h
      · simp at h
      · obtain ⟨r, hr, hf⟩ := GenOutcome.bind_ok h
        cases hf
        obtain ⟨hlen, hmem⟩ := ih hr
        refine ⟨by simp [hlen], ?_⟩
        intro c hc
        rcases List.mem_cons.mp hc with hc | hc
        · rw [hc]; exact List.get_mem _ _ _
        · exact hmem c hc

/-- A successful `generateRandomBytes` call had a non-negative requested
length and yields exactly that many characters, all from the set. -/
theorem generateRandomBytes_ok {charSet : List Char} {len : Int}
    {src : Nat → Option Nat} {pos : Nat} {sp : List Char × Nat}
    (h : generateRandomBytes charSet len src pos = .ok sp) :
    0 ≤ len ∧ sp.1.length = len.toNat ∧ ∀ c ∈ sp.1, c ∈ charSet := by
  unfold generateRandomBytes at h
  split at h
  · simp at h
  · obtain ⟨hlen, hmem⟩ := drawChars_ok h
    exact ⟨by omega, hlen, hmem⟩

/-- A successful minimum-draw loop covers every map entry: for each entry
`(k, v)` of the iterated list the accumulated buffer holds at least `v`
members of `k`. -/
theorem drawMinimums_ok_count {src : Nat → Option Nat} :
    ∀ {entries : List (List Char × Int)} {pos : Nat} {ap : List Char × Nat},
      drawMinimums src entries pos = .ok ap →
        ∀ k v, (k, v) ∈ entries →
          v.toNat ≤ ap.1.countP (fun c => decide (c ∈ k)) := by
  intro entries
  induction entries with
  | nil => intro pos ap _ k v hmem; simp at hmem
  | cons e rest ih =>
    intro pos ap h k v hmem
    obtain ⟨ke, ve⟩ := e
    rw [drawMinimums] at h
    obtain ⟨s, hs, h⟩ := GenOutcome.bind_ok h
    obtain ⟨acc, hacc, h⟩ := GenOutcome.bind_ok h
    cases h
    rw [List.countP_append]
    rcases List.mem_cons.mp hmem with hmem | hmem
    · injection hmem with hk hv
      subst hk
      subst hv
      obtain ⟨_, hslen, hsmem⟩ := generateRandomBytes_ok hs
      have h1 : v.toNat ≤ s.1.countP (fun c => decide (c ∈ k)) := by
        rw [List.countP_eq_length.mpr (by intro a ha; simpa using hsmem a ha), hslen]
      exact le_trans h1 (Nat.le_add_right _ _)
    · exact le_trans (ih hacc k v hmem) (Nat.le_add_left _ _)

/-- An adjacent swap permutes the list. -/
theorem swapAdj_perm {α : Type} : ∀ (l : List α) (j : Nat), (swapAdj l j).Perm l := by
  intro l
  induction l with
  | nil => intro j; exact List.Perm.refl _
  | cons a rest ih =>
    intro j
    cases rest with
    | nil => exact List.Perm.refl _
    | cons b r =>
      cases j with
      | zero => exact List.Perm.swap a b r
      | succ j => exact List.Perm.cons a (ih j)

/-- An adjacent swap commutes with `map`: it moves positions, not values. -/
theorem swapAdj_map {α β : Type} (f : α → β) :
    ∀ (l : List α) (j : Nat), swapAdj (l.map f) j = (swapAdj l j).map f := by
  intro l
  induction l with
  | nil => intro j; rfl
  | cons a rest ih =>
    intro j
    cases rest with
    | nil => rfl
    | cons b r =>
      cases j with
      | zero => rfl
      | succ j => exact congrArg (List.cons (f a)) (ih j)

/-- Each inner-loop run of the `sort.Slice` insertion sort permutes the
buffer. -/
theorem sortInner_perm (order : List Nat) {α : Type} :
    ∀ (j : Nat) (data : List α), (sortInner order data j).Perm data := by
  intro j
  induction j with
  | zero => intro data; exact List.Perm.refl _
  | succ j ih =>
    intro data
    rw [sortInner]
    split
    · exact (ih (swapAdj data j)).trans (swapAdj_perm data j)
    · exact List.Perm.refl _

/-- The inner loop's comparisons read only the fixed key array, so the loop
commutes with `map` over the buffer. -/
theorem sortInner_map (order : List Nat) {α β : Type} (f : α → β) :
    ∀ (j : Nat) (data : List α),
      sortInner order (data.map f) j = (sortInner order data j).map f := by
  intro j
  induction j with
  | zero => intro data; rfl
  | succ j ih =>
    intro data
    rw [sortInner, sortInner]
    split
    · rw [swapAdj_map, ih]
    · rfl

/-- Folding the inner loop over any index list permutes the buffer. -/
theorem foldl_sortInner_perm (order : List Nat) {α : Type} :
    ∀ (is : List Nat) (data : List α),
      (is.foldl (fun d i => sortInner order d i) data).Perm data := by
  intro is
  induction is with
  | nil => intro data; exact List.Perm.refl _
  | cons i is ih =>
    intro data
    exact (ih (sortInner order data i)).trans (sortInner_perm order i data)

/-- The `sort.Slice` reordering returns a permutation of the buffer. -/
theorem goSortSlice_perm (order : List Nat) {α : Type} (data : List α) :
    (goSortSlice order data).Perm data :=
  foldl_sortInner_perm order (List.range data.length) data

/-- The `sort.Slice` reordering is a pure position permutation determined
by the key array alone: it commutes with any value map. -/
theorem goSortSlice_map (order : List Nat) {α β : Type} (f : α → β)
    (data : List α) :
    goSortSlice order (data.map f) = (goSortSlice order data).map f := by
  unfold goSortSlice
  rw [List.length_map]
  generalize List.range data.length = is
  induction is generalizing data with
  | nil => rfl
  | cons i is ih => simp only [List.foldl_cons, sortInner_map, ih]

/-- Drawing zero-valued minimum entries consumes no randomness and returns
an empty buffer. -/
theorem drawMinimums_zero {src : Nat → Option Nat} :
    ∀ {entries : List (List Char × Int)} {pos : Nat},
      (∀ kv ∈ entries, kv.2 = 0) → drawMinimums src entries pos = .ok ([], pos) := by
  intro entries
  induction entries with
  | nil => intro pos _; rfl
  | cons e rest ih =>
    intro pos hz
    obtain ⟨ke, ve⟩ := e
    have hv : ve = 0 := hz (ke, ve) (List.mem_cons_self _ _)
    rw [drawMinimums, hv]
    have h0 : generateRandomBytes ke 0 src pos = .ok ([], pos) := by
      unfold generateRandomBytes
      rw [if_neg (by decide)]
      rfl
    rw [h0]
    simp only [GenOutcome.bind]
    rw [ih (fun kv hkv => hz kv (List.mem_cons_of_mem _ hkv))]
    simp [GenOutcome.bind]

/-- Inserting a zero value into a map whose values are all zero keeps all
values zero. -/
theorem mapInsert_values_zero {m : List (List Char × Int)} {k : List Char}
    (hm : ∀ kv ∈ m, kv.2 = 0) : ∀ kv ∈ mapInsert m k 0, kv.2 = 0 := by
  intro kv hkv
  unfold mapInsert at hkv
  split at hkv
  · obtain ⟨e, he, hfe⟩ := List.mem_map.mp hkv
    by_cases h : e.1 = k
    · rw [if_pos h] at hfe
      rw [← hfe]
    · rw [if_neg h] at hfe
      rw [← hfe]
      exact hm e he
  · rcases List.mem_append.mp hkv with h | h
    · exact hm kv h
    · rw [List.mem_singleton.mp h]

/-- The three fixed character sets are pairwise distinct. -/
theorem num_ne_lower : numChars ≠ lowerChars := by decide

/-- The numeric and uppercase sets differ. -/
theorem num_ne_upper : numChars ≠ upperChars := by decide

/-- The lowercase and uppercase sets differ. -/
theorem lower_ne_upper : lowerChars ≠ upperChars := by decide

/-- Without a key collision the `minMapping` literal holds its four entries
in source order. -/
theorem minMapping_eq_of_noCollision (p : StringPlan) (h : noCollision p) :
    minMapping p =
      [(numChars, p.minNumeric), (lowerChars, p.minLower),
        (upperChars, p.minUpper), (specialCharsOf p, p.minSpecial)] := by
  obtain ⟨h1, h2, h3⟩ := h
  unfold minMapping
  simp [mapInsert, num_ne_lower, num_ne_upper, lower_ne_upper,
    Ne.symm h1, Ne.symm h2, Ne.symm h3]

/-- Without a key collision every class contributes its own entry to
`minMapping`. -/
theorem classEntry_mem (p : StringPlan) (c : CharClass) (h : noCollision p) :
    (classSet p c, classMin p c) ∈ minMapping p := by
  rw [minMapping_eq_of_noCollision p h]
  cases c <;> simp [classSet, classMin]

/-- Inversion for a successful `createString` run: the minimum draws, the
remainder draw and the order-key read all succeeded, and the result is the
reordered concatenation. -/
theorem createString_ok_parts {p : StringPlan} {iter : List (List Char × Int)}
    {src : Nat → Option Nat} {ordSrc : Option (Nat → Nat)} {r : List Char}
    (h : createString p iter src ordSrc = .ok r) :
    ∃ md s order, drawMinimums src iter 0 = .ok md ∧
      generateRandomBytes (poolChars p) (p.length - (md.1.length : Int)) src md.2 = .ok s ∧
      readOrder (md.1 ++ s.1).length ordSrc = .ok order ∧
      r = goSortSlice order (md.1 ++ s.1) := by
  unfold createString at h
  split at h
  · simp at h
  · obtain ⟨md, hmd, h⟩ := GenOutcome.bind_ok h
    obtain ⟨s, hs, h⟩ := GenOutcome.bind_ok h
    obtain ⟨order, hord, h⟩ := GenOutcome.bind_ok h
    cases h
    exact ⟨md, s, order, hmd, hs, hord, rfl⟩

/-- C2: for every valid generation spec, a successful `createString` run
returns exactly `length` characters; every failing run returns no result at
all (the non-`ok` outcomes of `GenOutcome` carry no value). -/
theorem c2_exact_length (p : StringPlan) (iter : List (List Char × Int))
    (src : Nat → Option Nat) (ordSrc : Option (Nat → Nat)) (r : List Char)
    (hv : validSpec p) (hok : createString p iter src ordSrc = .ok r) :
    (r.length : Int) = p.length := by
  obtain ⟨md, s, order, hmd, hs, hord, hr⟩ := createString_ok_parts hok
  obtain ⟨hnn, hslen, _⟩ := generateRandomBytes_ok hs
  have hp : (goSortSlice order (md.1 ++ s.1)).length = md.1.length + s.1.length := by
    rw [(goSortSlice_perm order _).length_eq, List.length_append]
  rw [hr]
  omega

/-- C1 (amended): for every valid generation spec whose effective special
set does not collide with another class's set, and for every iteration
order of `minMapping`, a successful run returns a string holding, for each
enabled class, at least its minimum count of members of that class's set. -/
theorem c1_min_membership_amended (p : StringPlan) (iter : List (List Char × Int))
    (src : Nat → Option Nat) (ordSrc : Option (Nat → Nat)) (r : List Char)
    (c : CharClass) (hv : validSpec p) (hnc : noCollision p)
    (hiter : iter.Perm (minMapping p)) (hen : classEnabled p c = true)
    (hok : createString p iter src ordSrc = .ok r) :
    (classMin p c).toNat ≤ r.countP (fun ch => decide (ch ∈ classSet p c)) := by
  obtain ⟨md, s, order, hmd, hs, hord, hr⟩ := createString_ok_parts hok
  have hmem : (classSet p c, classMin p c) ∈ iter :=
    hiter.mem_iff.mpr (classEntry_mem p c hnc)
  have hcnt := drawMinimums_ok_count hmd _ _ hmem
  have hperm :=
    (goSortSlice_perm order (md.1 ++ s.1)).countP_eq (fun ch => decide (ch ∈ classSet p c))
  rw [hr, hperm, List.countP_append]
  exact le_trans hcnt (Nat.le_add_right _ _)

/-- C10 (amended): the minimum draws run for every `minMapping` entry
whether or not the class is enabled, so — absent a special-set key
collision — even a disabled class with a positive minimum is represented by
at least that many members in a successful result. -/
theorem c10_disabled_min_amended (p : StringPlan) (iter : List (List Char × Int))
    (src : Nat → Option Nat) (ordSrc : Option (Nat → Nat)) (r : List Char)
    (c : CharClass) (hnc : noCollision p) (hiter : iter.Perm (minMapping p))
    (hdis : classEnabled p c = false)
    (hok : createString p iter src ordSrc = .ok r) :
    (classMin p c).toNat ≤ r.countP (fun ch => decide (ch ∈ classSet p c)) := by
  obtain ⟨md, s, order, hmd, hs, hord, hr⟩ := createString_ok_parts hok
  have hmem : (classSet p c, classMin p c) ∈ iter :=
    hiter.mem_iff.mpr (classEntry_mem p c hnc)
  have hcnt := drawMinimums_ok_count hmd _ _ hmem
  have hperm :=
    (goSortSlice_perm order (md.1 ++ s.1)).countP_eq (fun ch => decide (ch ∈ classSet p c))
  rw [hr, hperm, List.countP_append]
  exact le_trans hcnt (Nat.le_add_right _ _)

/-- C4: at `length = 5` with `min_upper = min_lower = 2 ^ 62`, the exact
sum of the minimums exceeds `length` — the claim's premise holds — yet
`validateLength`'s `int64` sum wraps to `-2 ^ 63`, so neither validator
adds a diagnostic, and the minimum-draw loop then panics in the over-cap
`make` instead of reporting the specification error the claim requires. -/
theorem c4_overflow_panics :
    planOverflow.length < sumMins planOverflow ∧
      validateLengthFails planOverflow = false ∧
      generate planOverflow (minMapping planOverflow) srcZero ordZero = .panicked := by
  exact ⟨by decide, by decide, by decide⟩

/-- With all four minimums zero, every `minMapping` value is zero, whatever
the special-set key does. -/
theorem minMapping_values_zero (p : StringPlan) (hn : p.minNumeric = 0)
    (hl : p.minLower = 0) (hu : p.minUpper = 0) (hs : p.minSpecial = 0) :
    ∀ kv ∈ minMapping p, kv.2 = 0 := by
  unfold minMapping
  rw [hn, hl, hu, hs]
  exact mapInsert_values_zero (mapInsert_values_zero (mapInsert_values_zero
    (mapInsert_values_zero (by simp))))

/-- C9 (amended): a zero `length` is rejected by the length attribute
validator, so the pipeline reports a specification error; the generation
core itself, run with zero length and zero minimums, returns the empty
string with no error. -/
theorem c9_zero_length_amended (p : StringPlan) (iter : List (List Char × Int))
    (src : Nat → Option Nat) (ordSrc : Option (Nat → Nat)) (hlen : p.length = 0)
    (h1 : p.minUpper = 0) (h2 : p.minLower = 0) (h3 : p.minNumeric = 0)
    (h4 : p.minSpecial = 0) (hiter : iter.Perm (minMapping p)) :
    generate p iter src ordSrc = .specError ∧
      createString p iter src ordSrc = .ok [] := by
  have hz : ∀ kv ∈ iter, kv.2 = 0 := fun kv hkv =>
    minMapping_values_zero p h3 h2 h1 h4 kv (hiter.mem_iff.mp hkv)
  constructor
  · simp [generate, lengthValidatorFails, hlen]
  · unfold createString
    rw [if_neg (by rw [hlen]; decide)]
    rw [drawMinimums_zero hz]
    simp only [GenOutcome.bind]
    simp [generateRandomBytes, goMaxAlloc, hlen, drawChars, readOrder, goSortSlice]
/-- C1 (counterexample): a valid spec — number enabled with minimum 1,
length 3 ≥ the minimum sum, non-empty pool — whose special override equals
the numeric set.  The map-literal key collision drops the numeric minimum,
and a run returning `"AAA"` holds zero numeric characters. -/
theorem c1_min_membership_cex :
    validSpec planCollide ∧ planCollide.number = true ∧
      planCollide.minNumeric = 1 ∧
      createString planCollide (minMapping planCollide) srcZero ordZero =
        .ok ['A', 'A', 'A'] ∧
      (['A', 'A', 'A'].countP fun ch => decide (ch ∈ numChars)) = 0 := by
  exact ⟨by decide, by decide, by decide, by decide, by decide⟩

/-- C1 (witness for the amended theorem) at `planMinUpper`. -/
theorem c1_min_membership_amended_witness :
    (classMin planMinUpper CharClass.upper).toNat ≤
      (['A', 'A'] : List Char).countP
        (fun ch => decide (ch ∈ classSet planMinUpper CharClass.upper)) :=
  c1_min_membership_amended planMinUpper (minMapping planMinUpper) srcZero ordZero
    ['A', 'A'] CharClass.upper (by decide) (by decide) (List.Perm.refl _)
    (by decide) (by decide)

/-- C2 (witness) at `planBasic`. -/
theorem c2_exact_length_witness :
    ((['A', 'A'] : List Char).length : Int) = planBasic.length :=
  c2_exact_length planBasic (minMapping planBasic) srcZero ordZero ['A', 'A']
    (by decide) (by decide)

/-- C5: with every class disabled and all minimums zero at length 1, the
pipeline passes both validators and then panics inside the remainder draw —
`crypto/rand.Int` is called with max 0 on the empty pool — instead of
reporting a specification error. -/
theorem c5_empty_pool_panics :
    generate planAllDisabled (minMapping planAllDisabled) srcZero ordZero = .panicked := by
  decide

/-- C6 (counterexample): with special enabled and the override set to the
empty string, the special class is not disabled — the default special set
stays in effect and generation draws `!` from it. -/
theorem c6_override_empty_cex :
    planEmptyOverride.overrideSpecial = [] ∧ planEmptyOverride.special = true ∧
      specialCharsOf planEmptyOverride = defaultSpecialChars ∧
      createString planEmptyOverride (minMapping planEmptyOverride) srcZero ordZero =
        .ok ['!'] ∧ '!' ∈ defaultSpecialChars := by
  exact ⟨by decide, by decide, by decide, by decide, by decide⟩

/-- C6 (amended): a non-empty override replaces the default special set
verbatim; an empty override is ignored and leaves the default special set
in effect. -/
theorem c6_override_amended (p : StringPlan) :
    (p.overrideSpecial ≠ [] → specialCharsOf p = p.overrideSpecial) ∧
      (p.overrideSpecial = [] → specialCharsOf p = defaultSpecialChars) := by
  constructor <;> intro h <;> simp [specialCharsOf, h]

/-- C6 (witness for the amended theorem) at `planPercentOverride`. -/
theorem c6_override_amended_witness :
    specialCharsOf planPercentOverride = planPercentOverride.overrideSpecial :=
  (c6_override_amended planPercentOverride).1 (by decide)

/-- C7 (counterexample): with key bytes 2,0,1 over the buffer `"ABC"`, the
code's reorder — `sort.Slice` whose comparator reads the fixed key array by
position, keys not moving with the elements — returns `"BAC"`, while a
stable reorder by ascending key returns `"BCA"`. -/
theorem c7_stable_sort_cex :
    createString planUpperThree (minMapping planUpperThree) srcSeq
        (some fun i => [2, 0, 1].getD i 0) = .ok ['B', 'A', 'C'] ∧
      goSortSlice [2, 0, 1] ['A', 'B', 'C'] = ['B', 'A', 'C'] ∧
      stableSortByKeys [2, 0, 1] ['A', 'B', 'C'] = ['B', 'C', 'A'] ∧
      (['B', 'A', 'C'] : List Char) ≠ ['B', 'C', 'A'] := by
  exact ⟨by decide, by decide, by decide, by decide⟩

/-- C7 (amended): the reorder draws one key byte per character and applies
the permutation `sort.Slice` performs under the fixed-key comparator: the
result is always a permutation of the buffer, and that permutation is
determined by the keys alone — it commutes with any map over the buffer
values, so it cannot depend on which phase produced a position's
character.  It is, however, not a stable sort by ascending key. -/
theorem c7_reorder_amended (order : List Nat) (data : List Char) (f : Char → Char) :
    (goSortSlice order data).Perm data ∧
      goSortSlice order (data.map f) = (goSortSlice order data).map f :=
  ⟨goSortSlice_perm order data, goSortSlice_map order f data⟩

/-- C8: with a non-empty seed the shuffle's output is independent of the
ambient entropy stream — any two invocations with the same seed, input and
output length return identical sequences. -/
theorem c8_seed_determinism {α : Type} (input : List α) (outLen : Option Nat)
    (s : String) (e1 e2 : Nat → Nat) (hs : s ≠ "") :
    shuffleTop input outLen (some s) e1 = shuffleTop input outLen (some s) e2 := by
  simp [shuffleTop, hs]

/-- C8 (witness) at seed `"-"` over `["x", "y"]` with two different entropy
streams. -/
theorem c8_seed_determinism_witness :
    shuffleTop ["x", "y"] none (some "-") (fun _ => 0) =
      shuffleTop ["x", "y"] none (some "-") (fun _ => 7) :=
  c8_seed_determinism ["x", "y"] none "-" (fun _ => 0) (fun _ => 7) (by decide)

/-- C3: the pinned shuffle vectors for seed `"-"`: default output length
gives `a c b e d`, length 3 its prefix, length 12 three passes truncated;
empty input yields `[]` for every seed and length, and a singleton with
length 1 yields itself. -/
theorem c3_shuffle_vectors :
    shuffleTop ["a", "b", "c", "d", "e"] none (some "-") (fun _ => 0) =
        ["a", "c", "b", "e", "d"] ∧
      shuffleTop ["a", "b", "c", "d", "e"] (some 3) (some "-") (fun _ => 0) =
        ["a", "c", "b"] ∧
      shuffleTop ["a", "b", "c", "d", "e"] (some 12) (some "-") (fun _ => 0) =
        ["a", "c", "b", "e", "d", "a", "e", "d", "c", "b", "a", "b"] ∧
      (∀ (seed : Option String) (n : Option Nat) (e : Nat → Nat),
        shuffleTop ([] : List String) n seed e = []) ∧
      shuffleTop (["a"] : List String) (some 1) (some "-") (fun _ => 0) = ["a"] := by
  refine ⟨by decide, by decide, by decide, ?_, by decide⟩
  intro seed n e
  cases seed with
  | none => simp [shuffleTop, shuffleModel]
  | some s =>
    by_cases h : s = "" <;> simp [shuffleTop, shuffleModel, h]

/-- C9 (counterexample): length 0 with all minimums zero is rejected by the
length validator — the pipeline returns a specification error, not the
empty string. -/
theorem c9_zero_length_cex :
    generate planZeroLength (minMapping planZeroLength) srcZero ordZero = .specError := by
  decide

/-- C9 (witness for the amended theorem) at `planZeroLength`. -/
theorem c9_zero_length_amended_witness :
    generate planZeroLength (minMapping planZeroLength) srcZero ordZero = .specError ∧
      createString planZeroLength (minMapping planZeroLength) srcZero ordZero = .ok [] :=
  c9_zero_length_amended planZeroLength (minMapping planZeroLength) srcZero ordZero
    (by decide) (by decide) (by decide) (by decide) (by decide) (List.Perm.refl _)

/-- C10 (counterexample): number disabled yet `min_numeric = 1`, with the
special override equal to the numeric set: the collision erases the numeric
minimum entry and a run returns `"AAA"` with no numeric character at all. -/
theorem c10_disabled_min_cex :
    planCollideDisabled.number = false ∧ planCollideDisabled.minNumeric = 1 ∧
      createString planCollideDisabled (minMapping planCollideDisabled) srcZero ordZero =
        .ok ['A', 'A', 'A'] ∧
      (['A', 'A', 'A'].countP fun ch => decide (ch ∈ numChars)) = 0 := by
  exact ⟨by decide, by decide, by decide, by decide⟩

/-- C10 (witness for the amended theorem) at `planMinUpperDisabled`. -/
theorem c10_disabled_min_amended_witness :
    (classMin planMinUpperDisabled CharClass.upper).toNat ≤
      (['A', 'a'] : List Char).countP
        (fun ch => decide (ch ∈ classSet planMinUpperDisabled CharClass.upper)) :=
  c10_disabled_min_amended planMinUpperDisabled (minMapping planMinUpperDisabled)
    srcZero ordZero ['A', 'a'] CharClass.upper (by decide) (List.Perm.refl _)
    (by decide) (by decide)
